import Mathlib

/-!
Shallow embedding of `src/src/lib.rs` (a hand-rolled growable vector built
directly on a raw allocator) together with proofs about its operations.

Modelling conventions, justified against the source:
* The buffer of `cap` slots holds live, constructed elements exactly in slots
  `[0, len)` (the containers own length invariant); slots `[len, cap)` are
  uninitialized and never read by the code.  We therefore model the buffer by
  the list `data` of its live elements, together with the stored fields `len`
  and `cap`.  `ptr::write(ptr.offset(len), e)` becomes `data ++ [e]`,
  `ptr::read(ptr.offset(i))` becomes `data[i]?` (a read of an uninitialized
  slot, which would be undefined behaviour in the source, surfaces as `none`
  and is proved unreachable from the length invariant), and the block moves
  `ptr::copy` in `insert`/`remove` become the corresponding `take`/`drop`
  reshufflings of `data`.
* A Rust panic (a failed `assert!`) aborts the operation; the `&mut self`
  state at that point is whatever had been written so far.  Each fallible
  operation therefore returns `Except String Unit × Vec T` (or
  `Except String T × Vec T` for `remove`): the second component is the state
  after the call, also on the error path, so that "failure before mutation"
  is a provable statement rather than a modelling artifact.
* `alloc`/`realloc` are the external allocator capability; on failure (null)
  the source calls `process::abort()`, which ends the process and leaves no
  observable state, so allocation is modelled as succeeding.  The
  capacity-overflow `assert!` in `grow`, which is the source's own check, is
  modelled faithfully as an error.
* `usize`/`isize` are 64 bits wide; `(isize::MAX as usize) / 2` is
  `(2 ^ 63 - 1) / 2`.  `mem::size_of::<T>()` is the parameter `sz`, a
  per-type constant.
-/

namespace ImplementingVec

/-- `isize::MAX` on the assumed 64-bit platform. -/
def isizeMax : Nat := 2 ^ 63 - 1

/-- `pub struct Vec<T> { ptr: Unique<T>, cap: usize, len: usize }`.
`data` models the contents of the live region `[0, len)` pointed to by
`ptr`; `cap` and `len` are the stored fields. -/
structure Vec (T : Type) where
  data : List T
  len : Nat
  cap : Nat
deriving Repr

/-- `struct IntoIter<T> { buf: Unique<T>, cap: usize, start: *const T, end: *const T }`.
`buf` models the live contents of the transferred buffer; `start` and `end_`
are the two cursors, as element offsets from the base address. -/
structure IntoIter (T : Type) where
  buf : List T
  cap : Nat
  start : Nat
  end_ : Nat
deriving Repr

namespace Vec

/-- `Vec::new`: asserts that the element size is non-zero, then returns the
empty vector (dangling pointer, `len = 0`, `cap = 0`). -/
def new (T : Type) (sz : Nat) : Except String (Vec T) :=
  if sz ≠ 0 then
    Except.ok { data := [], len := 0, cap := 0 }
  else
    Except.error "I\x27m not ready to handle ZSTs ):"

/-- `Vec::grow`: if `cap == 0`, allocate one slot and set `cap = 1`;
otherwise assert `cap * sz <= (isize::MAX as usize) / 2` and reallocate to
`2 * cap` slots.  The buffer contents are preserved by `realloc`.  A null
result from the allocator aborts the process (not modelled; see header). -/
def grow (sz : Nat) (v : Vec T) : Except String (Vec T) :=
  if v.cap = 0 then
    Except.ok { v with cap := 1 }
  else
    let newCap := v.cap * 2
    let oldNumBytes := v.cap * sz
    if oldNumBytes ≤ isizeMax / 2 then
      Except.ok { v with cap := newCap }
    else
      Except.error "The capacity has overflown!"

/-- `Vec::push`: grow when `len == cap`, write the element at offset `len`
(an append, by the live-region invariant), increment `len`. -/
def push (sz : Nat) (v : Vec T) (elem : T) : Except String Unit × Vec T :=
  match (if v.len = v.cap then grow sz v else Except.ok v) with
  | Except.error e => (Except.error e, v)
  | Except.ok v' =>
    (Except.ok (), { v' with data := v'.data ++ [elem], len := v'.len + 1 })

/-- `Vec::pop`: `None` when `len == 0`; otherwise decrement `len` and read
the element at the new `len` out of the buffer. -/
def pop (v : Vec T) : Option T × Vec T :=
  if v.len = 0 then
    (none, v)
  else
    let newLen := v.len - 1
    (v.data[newLen]?, { v with len := newLen, data := v.data.take newLen })

/-- `Vec::insert`: assert `index <= len`, grow when full, shift
`[index, len)` one slot right when `index < len`, write `elem` at `index`,
increment `len`. -/
def insert (sz : Nat) (v : Vec T) (index : Nat) (elem : T) :
    Except String Unit × Vec T :=
  if index ≤ v.len then
    match (if v.len = v.cap then grow sz v else Except.ok v) with
    | Except.error e => (Except.error e, v)
    | Except.ok v' =>
      let newData :=
        if index < v'.len then
          v'.data.take index ++ elem :: v'.data.drop index
        else
          v'.data ++ [elem]
      (Except.ok (), { v' with data := newData, len := v'.len + 1 })
  else
    (Except.error "Insertion index is out of bounds!", v)

/-- `Vec::remove`: assert `index < len`, decrement `len`, read the element at
`index` out, shift `(index, old_len)` one slot left.  A read of an
uninitialized slot (impossible under the length invariant) surfaces as an
error. -/
def remove (v : Vec T) (index : Nat) : Except String T × Vec T :=
  if index < v.len then
    match v.data[index]? with
    | some result =>
      (Except.ok result,
        { v with len := v.len - 1,
                 data := v.data.take index ++ v.data.drop (index + 1) })
    | none => (Except.error "read of uninitialized slot", v)
  else
    (Except.error "Removal index is out of bounds!", v)

/-- `Vec::into_iter`: transfer the buffer; `start` is the base (offset 0) and
`end` is the base when `cap == 0` (no allocation, dangling), otherwise
`ptr.offset(len)`. -/
def into_iter (v : Vec T) : IntoIter T :=
  { buf := v.data
    cap := v.cap
    start := 0
    end_ := if v.cap = 0 then 0 else v.len }

end Vec

namespace IntoIter

/-- `Iterator::next for IntoIter`: `None` once the cursors meet; otherwise
read the element at `start` out and advance `start`. -/
def next (it : IntoIter T) : Option T × IntoIter T :=
  if it.start = it.end_ then
    (none, it)
  else
    match it.buf[it.start]? with
    | some result => (some result, { it with start := it.start + 1 })
    | none => (none, it)

/-- `DoubleEndedIterator::next_back for IntoIter`: `None` once the cursors
meet; otherwise retreat `end` and read the element there out. -/
def next_back (it : IntoIter T) : Option T × IntoIter T :=
  if it.start = it.end_ then
    (none, it)
  else
    let newEnd := it.end_ - 1
    match it.buf[newEnd]? with
    | some elem => (some elem, { it with end_ := newEnd })
    | none => (none, it)

/-- The `for _ in &mut *self {}` drain in `Drop for IntoIter`: repeated
`next` until `None`.  Each successful `next` moves `start` one slot toward
`end`, so the loop runs at most `end_ - start` iterations; that count is
used as structural fuel. -/
def drainN (T : Type) : Nat → IntoIter T → List T
  | 0, _ => []
  | n + 1, it =>
    match it.next with
    | (some x, it') => x :: drainN T n it'
    | (none, _) => []

/-- `Drop for IntoIter`: when `cap != 0`, drain the remaining elements
(running each destructor) and free the buffer.  Returns the list of elements
destructed by the drain and whether the buffer was freed. -/
def dropIt (it : IntoIter T) : List T × Bool :=
  if it.cap ≠ 0 then
    (drainN T (it.end_ - it.start) it, true)
  else
    ([], false)

end IntoIter

namespace Vec

theorem pop_some_len {T : Type} (v v' : Vec T) (x : T)
    (h : v.pop = (some x, v')) : v'.len < v.len := by
  unfold pop at h
  by_cases h0 : v.len = 0
  · simp [h0] at h
  · simp only [h0, if_false] at h
    have h2 : v' = { v with len := v.len - 1, data := v.data.take (v.len - 1) } :=
      (congrArg Prod.snd h).symm
    subst h2
    show v.len - 1 < v.len
    omega

/-- The `while let Some(_) = self.pop() {}` drain in `Drop for Vec`:
repeated `pop` until `None`, destructing each popped element. -/
def popLoop (v : Vec T) : List T :=
  match h : v.pop with
  | (some x, v') => x :: popLoop v'
  | (none, _) => []
termination_by v.len
decreasing_by exact pop_some_len v v' x h

/-- `Drop for Vec`: when `cap != 0`, pop-drain every live element and free
the buffer.  Returns the list of elements destructed by the drain and
whether the buffer was freed. -/
def dropVec (v : Vec T) : List T × Bool :=
  if v.cap ≠ 0 then
    (popLoop v, true)
  else
    ([], false)

end Vec

/-- One client-visible operation on the container. -/
inductive Op (T : Type) where
  | push (x : T)
  | pop
  | insert (i : Nat) (x : T)
  | remove (i : Nat)

/-- One step of the trace semantics: apply an operation, recording in `made`
every element the container took ownership of (successful `push`/`insert`
arguments) and in `outs` every element handed back to the caller
(`pop`/`remove` results). -/
def stepTrace (sz : Nat) (st : Vec T × List T × List T) (op : Op T) :
    Vec T × List T × List T :=
  match op with
  | Op.push x =>
    match st.1.push sz x with
    | (Except.ok _, v') => (v', st.2.1 ++ [x], st.2.2)
    | (Except.error _, v') => (v', st.2.1, st.2.2)
  | Op.pop =>
    match st.1.pop with
    | (some r, v') => (v', st.2.1, st.2.2 ++ [r])
    | (none, v') => (v', st.2.1, st.2.2)
  | Op.insert i x =>
    match st.1.insert sz i x with
    | (Except.ok _, v') => (v', st.2.1 ++ [x], st.2.2)
    | (Except.error _, v') => (v', st.2.1, st.2.2)
  | Op.remove i =>
    match st.1.remove i with
    | (Except.ok r, v') => (v', st.2.1, st.2.2 ++ [r])
    | (Except.error _, v') => (v', st.2.1, st.2.2)

/-- Run a list of operations from a start state, accumulating the trace. -/
def runTrace (sz : Nat) (st : Vec T × List T × List T) (ops : List (Op T)) :
    Vec T × List T × List T :=
  ops.foldl (stepTrace sz) st

/-- Push a whole list of elements in order, stopping at the first failure
(a failed push panics, ending the client program). -/
def pushAll (sz : Nat) (v : Vec T) : List T → Except String Unit × Vec T
  | [] => (Except.ok (), v)
  | x :: xs =>
    match v.push sz x with
    | (Except.ok _, v') => pushAll sz v' xs
    | (Except.error e, v') => (Except.error e, v')

/-- Pop `n` times, collecting the returned options in call order. -/
def popN (v : Vec T) : Nat → List (Option T) × Vec T
  | 0 => ([], v)
  | n + 1 =>
    let p := v.pop
    let q := popN p.2 n
    (p.1 :: q.1, q.2)

/-- Perform a sequence of takes on the consuming iterator, `true` for a
forward `next` and `false` for a backward `next_back`.  Returns the elements
yielded forward (in yield order), the elements yielded backward (in yield
order), and the final iterator. -/
def runTakes (it : IntoIter T) : List Bool → (List T × List T) × IntoIter T
  | [] => (([], []), it)
  | d :: ds =>
    let p := if d then it.next else it.next_back
    let q := runTakes p.2 ds
    match p.1 with
    | some x =>
      if d then ((x :: q.1.1, q.1.2), q.2) else ((q.1.1, x :: q.1.2), q.2)
    | none => ((q.1.1, q.1.2), q.2)

/-- The length invariant of the container: `len` counts exactly the live
elements and never exceeds the capacity. -/
def Inv (v : Vec T) : Prop :=
  v.len = v.data.length ∧ v.len ≤ v.cap

theorem take_getElem_eq {T : Type} :
    ∀ (l : List T) (k : Nat) (x : T), l.length = k + 1 → l[k]? = some x →
      l = l.take k ++ [x] := by
  intro l
  induction l with
  | nil => intro k x h; simp at h
  | cons a l ih =>
    intro k x hlen hx
    cases k with
    | zero =>
      simp at hx
      simp only [List.length_cons] at hlen
      have : l = [] := List.length_eq_zero.mp (by omega)
      simp [this, hx]
    | succ k =>
      simp only [List.length_cons] at hlen
      simp only [List.getElem?_cons_succ] at hx
      simpa using ih k x (by omega) hx

theorem grow_ok {T : Type} (sz : Nat) (v v' : Vec T)
    (h : Vec.grow sz v = Except.ok v') :
    v'.data = v.data ∧ v'.len = v.len ∧
      v'.cap = (if v.cap = 0 then 1 else 2 * v.cap) := by
  unfold Vec.grow at h
  by_cases h0 : v.cap = 0
  · simp only [h0, if_pos rfl] at h
    cases h
    simp [h0]
  · simp only [h0, if_neg h0, if_false] at h
    by_cases hb : v.cap * sz ≤ isizeMax / 2
    · simp only [hb, if_pos hb] at h
      cases h
      constructor
      · rfl
      constructor
      · rfl
      · simp [h0]
        omega
    · simp [hb] at h

theorem push_ok {T : Type} (sz : Nat) (v v' : Vec T) (x : T) (u : Unit)
    (h : v.push sz x = (Except.ok u, v')) :
    v'.data = v.data ++ [x] ∧ v'.len = v.len + 1 ∧
      v'.cap = (if v.len = v.cap then (if v.cap = 0 then 1 else 2 * v.cap)
                else v.cap) := by
  unfold Vec.push at h
  by_cases hfull : v.len = v.cap
  · simp only [hfull, if_pos rfl] at h
    cases hg : Vec.grow sz v with
    | error e => rw [hg] at h; simp at h
    | ok w =>
      rw [hg] at h
      obtain ⟨hd, hl, hc⟩ := grow_ok sz v w hg
      cases h
      simp [hd, hl, hc, hfull]
  · simp only [hfull, if_neg hfull] at h
    cases h
    simp [hfull]

theorem push_error {T : Type} (sz : Nat) (v : Vec T) (x : T) (e : String)
    (h : (v.push sz x).1 = Except.error e) : (v.push sz x).2 = v := by
  unfold Vec.push at h ⊢
  cases hg : (if v.len = v.cap then Vec.grow sz v else Except.ok v) with
  | error e' => rfl
  | ok w => rw [hg] at h; simp at h

theorem push_inv {T : Type} (sz : Nat) (v v' : Vec T) (x : T) (u : Unit)
    (hInv : Inv v) (h : v.push sz x = (Except.ok u, v')) : Inv v' := by
  obtain ⟨hd, hl, hc⟩ := push_ok sz v v' x u h
  obtain ⟨h1, h2⟩ := hInv
  constructor
  · simp [hd, hl, h1]
  · rw [hl, hc]
    split
    · split <;> omega
    · omega

theorem pop_spec {T : Type} (v : Vec T) (hInv : Inv v) (hne : v.len ≠ 0) :
    ∃ x, v.data[v.len - 1]? = some x ∧
      v.pop = (some x, { v with len := v.len - 1,
                                data := v.data.take (v.len - 1) }) := by
  obtain ⟨h1, _⟩ := hInv
  have hlt : v.len - 1 < v.data.length := by omega
  refine ⟨v.data[v.len - 1], List.getElem?_eq_getElem hlt, ?_⟩
  unfold Vec.pop
  rw [if_neg hne]
  simp only [List.getElem?_eq_getElem hlt]

theorem pop_inv {T : Type} (v v' : Vec T) (r : Option T)
    (hInv : Inv v) (h : v.pop = (r, v')) : Inv v' := by
  obtain ⟨h1, h2⟩ := hInv
  unfold Vec.pop at h
  by_cases h0 : v.len = 0
  · simp only [h0, if_pos rfl] at h
    cases h
    exact ⟨h1, h2⟩
  · simp only [h0, if_neg h0] at h
    have h3 : v' = { v with len := v.len - 1, data := v.data.take (v.len - 1) } :=
      (congrArg Prod.snd h).symm
    subst h3
    constructor
    · show v.len - 1 = (v.data.take (v.len - 1)).length
      rw [List.length_take]
      omega
    · show v.len - 1 ≤ v.cap
      omega

theorem insert_ok {T : Type} (sz : Nat) (v v' : Vec T) (i : Nat) (x : T)
    (u : Unit) (hInv : Inv v) (h : v.insert sz i x = (Except.ok u, v')) :
    i ≤ v.len ∧ v'.data = v.data.take i ++ x :: v.data.drop i ∧
      v'.len = v.len + 1 ∧ v.len + 1 ≤ v'.cap := by
  unfold Vec.insert at h
  by_cases hi : i ≤ v.len
  · simp only [hi, if_pos hi] at h
    refine ⟨hi, ?_⟩
    obtain ⟨h1, h2⟩ := hInv
    cases hg : (if v.len = v.cap then Vec.grow sz v else Except.ok v) with
    | error e => rw [hg] at h; simp at h
    | ok w =>
      rw [hg] at h
      have hw : w.data = v.data ∧ w.len = v.len ∧ v.len + 1 ≤ w.cap := by
        by_cases hfull : v.len = v.cap
        · rw [if_pos hfull] at hg
          obtain ⟨hd, hl, hc⟩ := grow_ok sz v w hg
          refine ⟨hd, hl, ?_⟩
          rw [hc]
          split <;> omega
        · rw [if_neg hfull] at hg
          cases hg
          exact ⟨rfl, rfl, by omega⟩
      obtain ⟨hwd, hwl, hwc⟩ := hw
      cases h
      by_cases hlt : i < w.len
      · refine ⟨?_, by simp [hwl], by simpa using hwc⟩
        show (if i < w.len then _ else _) = _
        rw [if_pos hlt, hwd]
      · have hiw : i = v.len := by omega
        have ht : v.data.take i = v.data := List.take_of_length_le (by omega)
        have hd : v.data.drop i = [] := List.drop_eq_nil_of_le (by omega)
        refine ⟨?_, by simp [hwl], by simpa using hwc⟩
        show (if i < w.len then _ else _) = _
        rw [if_neg hlt, hwd, ht, hd]
  · simp only [hi, if_neg hi] at h
    simp at h

theorem insert_oob {T : Type} (sz : Nat) (v : Vec T) (i : Nat) (x : T)
    (hi : v.len < i) :
    v.insert sz i x = (Except.error "Insertion index is out of bounds!", v) := by
  unfold Vec.insert
  rw [if_neg (by omega)]

theorem insert_error {T : Type} (sz : Nat) (v : Vec T) (i : Nat) (x : T)
    (e : String) (h : (v.insert sz i x).1 = Except.error e) :
    (v.insert sz i x).2 = v := by
  unfold Vec.insert at h ⊢
  by_cases hi : i ≤ v.len
  · rw [if_pos hi] at h ⊢
    cases hg : (if v.len = v.cap then Vec.grow sz v else Except.ok v) with
    | error e' => rfl
    | ok w => rw [hg] at h; simp at h
  · rw [if_neg hi]

theorem insert_inv {T : Type} (sz : Nat) (v v' : Vec T) (i : Nat) (x : T)
    (u : Unit) (hInv : Inv v) (h : v.insert sz i x = (Except.ok u, v')) :
    Inv v' := by
  obtain ⟨hi, hd, hl, hc⟩ := insert_ok sz v v' i x u hInv h
  obtain ⟨h1, h2⟩ := hInv
  constructor
  · rw [hd, hl]
    simp [List.length_take]
    omega
  · omega

theorem remove_ok {T : Type} (v : Vec T) (i : Nat) (hInv : Inv v)
    (hi : i < v.len) :
    ∃ x, v.data[i]? = some x ∧
      v.remove i = (Except.ok x,
        { v with len := v.len - 1,
                 data := v.data.take i ++ v.data.drop (i + 1) }) := by
  obtain ⟨h1, _⟩ := hInv
  have hlt : i < v.data.length := by omega
  refine ⟨v.data[i], List.getElem?_eq_getElem hlt, ?_⟩
  unfold Vec.remove
  rw [if_pos hi, List.getElem?_eq_getElem hlt]

theorem remove_oob {T : Type} (v : Vec T) (i : Nat) (hi : v.len ≤ i) :
    v.remove i = (Except.error "Removal index is out of bounds!", v) := by
  unfold Vec.remove
  rw [if_neg (by omega)]

theorem remove_error {T : Type} (v : Vec T) (i : Nat) (e : String)
    (h : (v.remove i).1 = Except.error e) : (v.remove i).2 = v := by
  unfold Vec.remove at h ⊢
  by_cases hi : i < v.len
  · rw [if_pos hi] at h ⊢
    cases hx : v.data[i]? with
    | some x => rw [hx] at h; simp at h
    | none => rfl
  · rw [if_neg hi]

theorem remove_inv {T : Type} (v v' : Vec T) (i : Nat) (x : T)
    (hInv : Inv v) (h : v.remove i = (Except.ok x, v')) : Inv v' := by
  obtain ⟨h1, h2⟩ := hInv
  unfold Vec.remove at h
  by_cases hi : i < v.len
  · rw [if_pos hi] at h
    cases hx : v.data[i]? with
    | some y =>
      rw [hx] at h
      have h3 : v' = { v with len := v.len - 1,
                              data := v.data.take i ++ v.data.drop (i + 1) } :=
        (congrArg Prod.snd h).symm
      subst h3
      constructor
      · show v.len - 1 = (v.data.take i ++ v.data.drop (i + 1)).length
        simp [List.length_take, List.length_drop]
        omega
      · show v.len - 1 ≤ v.cap
        omega
    | none => rw [hx] at h; simp at h
  · rw [if_neg hi] at h
    simp at h

theorem popLoop_eq {T : Type} : ∀ (n : Nat) (v : Vec T), v.len = n → Inv v →
    Vec.popLoop v = v.data.reverse := by
  intro n
  induction n using Nat.strong_induction_on with
  | _ n ih =>
    intro v hn hInv
    obtain ⟨h1, h2⟩ := hInv
    by_cases h0 : v.len = 0
    · have hdata : v.data = [] := List.length_eq_zero.mp (by omega)
      have hpop : v.pop = (none, v) := by unfold Vec.pop; rw [if_pos h0]
      rw [Vec.popLoop]
      split
      · next x v' heq => rw [hpop] at heq; simp at heq
      · rw [hdata]; rfl
    · obtain ⟨x, hx, hpop⟩ := pop_spec v ⟨h1, h2⟩ h0
      rw [Vec.popLoop]
      split
      · next y v' heq =>
        rw [hpop] at heq
        obtain ⟨hy, hv'⟩ := Prod.mk.injEq .. ▸ heq
        obtain rfl : x = y := Option.some.inj hy
        subst hv'
        have hInv' : Inv { v with len := v.len - 1, data := v.data.take (v.len - 1) } := by
          constructor
          · show v.len - 1 = (v.data.take (v.len - 1)).length
            rw [List.length_take]; omega
          · show v.len - 1 ≤ v.cap
            omega
        rw [ih (v.len - 1) (by omega) _ rfl hInv']
        show x :: (v.data.take (v.len - 1)).reverse = v.data.reverse
        have hdata : v.data = v.data.take (v.len - 1) ++ [x] :=
          take_getElem_eq v.data (v.len - 1) x (by omega) hx
        conv_rhs => rw [hdata]
        rw [List.reverse_concat]
      · next heq => rw [hpop] at heq; simp at heq

theorem dropVec_fst {T : Type} (v : Vec T) (hInv : Inv v) :
    (Vec.dropVec v).1 = v.data.reverse := by
  unfold Vec.dropVec
  by_cases hc : v.cap ≠ 0
  · rw [if_pos hc]
    exact popLoop_eq v.len v rfl hInv
  · rw [if_neg hc]
    obtain ⟨h1, h2⟩ := hInv
    simp only [Decidable.not_not] at hc
    have : v.data = [] := List.length_eq_zero.mp (by omega)
    rw [this]
    rfl

theorem next_stop {T : Type} (it : IntoIter T) (h : it.start = it.end_) :
    it.next = (none, it) := by
  unfold IntoIter.next
  rw [if_pos h]

theorem next_back_stop {T : Type} (it : IntoIter T) (h : it.start = it.end_) :
    it.next_back = (none, it) := by
  unfold IntoIter.next_back
  rw [if_pos h]

theorem next_yield {T : Type} (it : IntoIter T) (hlt : it.start < it.end_)
    (hle : it.end_ ≤ it.buf.length) :
    ∃ h : it.start < it.buf.length,
      it.next = (some it.buf[it.start], { it with start := it.start + 1 }) := by
  have h : it.start < it.buf.length := by omega
  refine ⟨h, ?_⟩
  unfold IntoIter.next
  rw [if_neg (by omega), List.getElem?_eq_getElem h]

theorem next_back_yield {T : Type} (it : IntoIter T)
    (hlt : it.start < it.end_) (hle : it.end_ ≤ it.buf.length) :
    ∃ h : it.end_ - 1 < it.buf.length,
      it.next_back =
        (some it.buf[it.end_ - 1], { it with end_ := it.end_ - 1 }) := by
  have h : it.end_ - 1 < it.buf.length := by omega
  refine ⟨h, ?_⟩
  unfold IntoIter.next_back
  rw [if_neg (by omega)]
  simp only [List.getElem?_eq_getElem h]

theorem drainN_slice {T : Type} :
    ∀ (n : Nat) (it : IntoIter T), it.start + n = it.end_ →
      it.end_ ≤ it.buf.length →
      IntoIter.drainN T n it = (it.buf.drop it.start).take n := by
  intro n
  induction n with
  | zero => intro it h1 h2; rfl
  | succ n ih =>
    intro it h1 h2
    obtain ⟨hb, hnext⟩ := next_yield it (by omega) h2
    show (match it.next with
          | (some x, it') => x :: IntoIter.drainN T n it'
          | (none, _) => []) = _
    rw [hnext]
    show it.buf[it.start] :: IntoIter.drainN T n { it with start := it.start + 1 } = _
    rw [ih { it with start := it.start + 1 } (by show it.start + 1 + n = it.end_; omega) h2]
    show it.buf[it.start] :: (it.buf.drop (it.start + 1)).take n = _
    rw [List.drop_eq_getElem_cons hb, List.take_succ_cons]

theorem dropIt_fst {T : Type} (it : IntoIter T) (hse : it.start ≤ it.end_)
    (hel : it.end_ ≤ it.buf.length) (hcap : it.cap = 0 → it.start = it.end_) :
    (IntoIter.dropIt it).1 = (it.buf.drop it.start).take (it.end_ - it.start) := by
  unfold IntoIter.dropIt
  by_cases hc : it.cap ≠ 0
  · rw [if_pos hc]
    exact drainN_slice (it.end_ - it.start) it (by omega) hel
  · rw [if_neg hc]
    simp only [Decidable.not_not] at hc
    have h0 : it.start = it.end_ := hcap hc
    show ([] : List T) = (it.buf.drop it.start).take (it.end_ - it.start)
    rw [h0, Nat.sub_self, List.take_zero]

theorem into_iter_eq {T : Type} (v : Vec T) (hInv : Inv v) :
    v.into_iter = ⟨v.data, v.cap, 0, v.len⟩ := by
  unfold Vec.into_iter
  obtain ⟨h1, h2⟩ := hInv
  by_cases hc : v.cap = 0
  · rw [if_pos hc]
    have : v.len = 0 := by omega
    rw [this]
  · rw [if_neg hc]


theorem runTakes_cons_none {T : Type} (it it' : IntoIter T) (d : Bool)
    (ds : List Bool) (h : (if d then it.next else it.next_back) = (none, it')) :
    runTakes it (d :: ds) = runTakes it' ds := by
  cases d
  · rw [if_neg Bool.false_ne_true] at h
    simp [runTakes, h]
  · rw [if_pos rfl] at h
    simp [runTakes, h]

theorem runTakes_cons_some_true {T : Type} (it it' : IntoIter T) (x : T)
    (ds : List Bool) (h : it.next = (some x, it')) :
    runTakes it (true :: ds) =
      ((x :: (runTakes it' ds).1.1, (runTakes it' ds).1.2),
        (runTakes it' ds).2) := by
  simp [runTakes, h]

theorem runTakes_cons_some_false {T : Type} (it it' : IntoIter T) (x : T)
    (ds : List Bool) (h : it.next_back = (some x, it')) :
    runTakes it (false :: ds) =
      (((runTakes it' ds).1.1, x :: (runTakes it' ds).1.2),
        (runTakes it' ds).2) := by
  simp [runTakes, h]


theorem runTakes_spec {T : Type} (data : List T) (cap : Nat) :
    ∀ (ds : List Bool) (s e : Nat), s ≤ e → e ≤ data.length →
      ∃ s' e', s ≤ s' ∧ s' ≤ e' ∧ e' ≤ e ∧
        runTakes ⟨data, cap, s, e⟩ ds =
          (((data.take s').drop s, ((data.drop e').take (e - e')).reverse),
            ⟨data, cap, s', e'⟩) := by
  intro ds
  induction ds with
  | nil =>
    intro s e hse hel
    refine ⟨s, e, le_refl s, hse, le_refl e, ?_⟩
    have h1 : (data.take s).drop s = [] :=
      List.drop_eq_nil_of_le (by rw [List.length_take]; exact min_le_left _ _)
    rw [h1, Nat.sub_self, List.take_zero, List.reverse_nil]
    rfl
  | cons d ds ih =>
    intro s e hse hel
    by_cases hstop : s = e
    · subst hstop
      have hn : (if d then IntoIter.next ⟨data, cap, s, s⟩
                 else IntoIter.next_back ⟨data, cap, s, s⟩) =
          (none, ⟨data, cap, s, s⟩) := by
        cases d
        · rw [if_neg Bool.false_ne_true]
          exact next_back_stop _ rfl
        · rw [if_pos rfl]
          exact next_stop _ rfl
      rw [runTakes_cons_none _ _ d ds hn]
      exact ih s s (le_refl s) hel
    · have hlt : s < e := by omega
      cases d
      · obtain ⟨hb, hnb⟩ := next_back_yield ⟨data, cap, s, e⟩ hlt hel
        rw [runTakes_cons_some_false _ _ _ ds hnb]
        obtain ⟨s', e', h1, h2, h3, heq⟩ := ih s (e - 1) (by omega) (by omega)
        refine ⟨s', e', h1, h2, by omega, ?_⟩
        rw [heq]
        have hbs : ((data.drop e').take (e - e')).reverse =
            data[e - 1] :: ((data.drop e').take (e - 1 - e')).reverse := by
          have h4 : e - e' = (e - 1 - e') + 1 := by omega
          rw [h4, List.take_succ]
          have h5 : (data.drop e')[e - 1 - e']? = some data[e - 1] := by
            rw [List.getElem?_drop]
            have h6 : e' + (e - 1 - e') = e - 1 := by omega
            rw [h6]
            exact List.getElem?_eq_getElem hb
          rw [h5]
          show ((data.drop e').take (e - 1 - e') ++ [data[e - 1]]).reverse = _
          rw [List.reverse_concat]
        rw [hbs]
      · obtain ⟨hb, hnx⟩ := next_yield ⟨data, cap, s, e⟩ hlt hel
        rw [runTakes_cons_some_true _ _ _ ds hnx]
        obtain ⟨s', e', h1, h2, h3, heq⟩ := ih (s + 1) e (by omega) hel
        refine ⟨s', e', by omega, h2, h3, ?_⟩
        rw [heq]
        have hfs : (data.take s').drop s =
            data[s] :: (data.take s').drop (s + 1) := by
          have h4 : s < (data.take s').length := by
            rw [List.length_take]
            omega
          rw [List.drop_eq_getElem_cons h4, List.getElem_take]
        rw [hfs]

theorem runTakes_replicate_true {T : Type} (data : List T) (cap : Nat) :
    ∀ (n s e : Nat), s + n = e → e ≤ data.length →
      runTakes ⟨data, cap, s, e⟩ (List.replicate n true) =
        (((data.drop s).take n, []), ⟨data, cap, e, e⟩) := by
  intro n
  induction n with
  | zero =>
    intro s e h1 h2
    obtain rfl : s = e := by omega
    rfl
  | succ n ih =>
    intro s e h1 h2
    obtain ⟨hb, hnx⟩ := next_yield ⟨data, cap, s, e⟩ (by show s < e; omega) h2
    rw [List.replicate_succ, runTakes_cons_some_true _ _ _ _ hnx,
        ih (s + 1) e (by omega) h2]
    show ((data[s] :: (data.drop (s + 1)).take n, []), _) = _
    rw [← List.take_succ_cons, ← List.drop_eq_getElem_cons hb]

theorem runTakes_replicate_false {T : Type} (data : List T) (cap : Nat) :
    ∀ (n s e : Nat), s + n = e → e ≤ data.length →
      runTakes ⟨data, cap, s, e⟩ (List.replicate n false) =
        (([], ((data.drop s).take n).reverse), ⟨data, cap, s, s⟩) := by
  intro n
  induction n with
  | zero =>
    intro s e h1 h2
    obtain rfl : s = e := by omega
    rfl
  | succ n ih =>
    intro s e h1 h2
    obtain ⟨hb, hnb⟩ := next_back_yield ⟨data, cap, s, e⟩ (by show s < e; omega) h2
    rw [List.replicate_succ, runTakes_cons_some_false _ _ _ _ hnb,
        ih s (e - 1) (by omega) (by omega)]
    show (([], data[e - 1] :: ((data.drop s).take n).reverse), _) = _
    have h4 : (data.drop s).take (n + 1) =
        (data.drop s).take n ++ [data[e - 1]] := by
      rw [List.take_succ]
      have h5 : (data.drop s)[n]? = some data[e - 1] := by
        rw [List.getElem?_drop]
        have h6 : s + n = e - 1 := by omega
        rw [h6]
        exact List.getElem?_eq_getElem hb
      rw [h5]
      rfl
    rw [h4, List.reverse_concat]
/-- Combined invariant of the trace semantics: the container satisfies the
length invariant, and the constructed elements are exactly the handed-out
elements plus the live elements, up to permutation. -/
def TraceInv (st : Vec T × List T × List T) : Prop :=
  Inv st.1 ∧ st.2.1.Perm (st.2.2 ++ st.1.data)

open List in
theorem stepTrace_inv {T : Type} (sz : Nat) (v : Vec T)
    (made outs : List T) (op : Op T) (h : TraceInv (v, made, outs)) :
    TraceInv (stepTrace sz (v, made, outs) op) := by
  obtain ⟨hInv, hperm⟩ := h
  obtain ⟨h1, h2⟩ := hInv
  replace h1 : v.len = v.data.length := h1
  replace h2 : v.len ≤ v.cap := h2
  replace hperm : made.Perm (outs ++ v.data) := hperm
  cases op with
  | push x =>
    show TraceInv (match v.push sz x with
      | (Except.ok _, v') => (v', made ++ [x], outs)
      | (Except.error _, v') => (v', made, outs))
    cases hp : v.push sz x with
    | mk r v' =>
      cases r with
      | error e =>
        have hv : v' = v := by
          have h3 := push_error sz v x e (by rw [hp])
          rwa [hp] at h3
        subst hv
        exact ⟨⟨h1, h2⟩, hperm⟩
      | ok u =>
        obtain ⟨hd, hl, hc⟩ := push_ok sz v v' x u hp
        refine ⟨push_inv sz v v' x u ⟨h1, h2⟩ hp, ?_⟩
        show (made ++ [x]).Perm (outs ++ v'.data)
        rw [hd]
        calc made ++ [x]
            _ ~ (outs ++ v.data) ++ [x] := hperm.append_right [x]
            _ = outs ++ (v.data ++ [x]) := List.append_assoc _ _ _
  | pop =>
    show TraceInv (match v.pop with
      | (some r, v') => (v', made, outs ++ [r])
      | (none, v') => (v', made, outs))
    cases hp : v.pop with
    | mk r v' =>
      cases r with
      | none =>
        have hi := pop_inv v v' none ⟨h1, h2⟩ hp
        have hd : v'.data = v.data := by
          by_cases h0 : v.len = 0
          · have h3 : v.pop = (none, v) := by unfold Vec.pop; rw [if_pos h0]
            rw [h3] at hp
            obtain ⟨-, hv⟩ := Prod.mk.injEq .. ▸ hp
            rw [← hv]
          · obtain ⟨y, hy, hpop⟩ := pop_spec v ⟨h1, h2⟩ h0
            rw [hpop] at hp
            simp at hp
        refine ⟨hi, ?_⟩
        show made.Perm (outs ++ v'.data)
        rw [hd]
        exact hperm
      | some x =>
        have h0 : v.len ≠ 0 := by
          intro h0
          unfold Vec.pop at hp
          rw [if_pos h0] at hp
          simp at hp
        obtain ⟨y, hy, hpop⟩ := pop_spec v ⟨h1, h2⟩ h0
        rw [hpop] at hp
        obtain ⟨hxy, hv'⟩ := Prod.mk.injEq .. ▸ hp
        obtain rfl : y = x := Option.some.inj hxy
        subst hv'
        refine ⟨pop_inv v _ (some y) ⟨h1, h2⟩ hpop, ?_⟩
        show made.Perm ((outs ++ [y]) ++ v.data.take (v.len - 1))
        have hdata : v.data = v.data.take (v.len - 1) ++ [y] :=
          take_getElem_eq v.data (v.len - 1) y (by omega) hy
        calc made
            _ ~ outs ++ v.data := hperm
            _ = outs ++ (v.data.take (v.len - 1) ++ [y]) := by rw [← hdata]
            _ ~ outs ++ ([y] ++ v.data.take (v.len - 1)) :=
              List.Perm.append_left _ List.perm_append_comm
            _ = (outs ++ [y]) ++ v.data.take (v.len - 1) :=
              (List.append_assoc _ _ _).symm
  | insert i x =>
    show TraceInv (match v.insert sz i x with
      | (Except.ok _, v') => (v', made ++ [x], outs)
      | (Except.error _, v') => (v', made, outs))
    cases hp : v.insert sz i x with
    | mk r v' =>
      cases r with
      | error e =>
        have hv : v' = v := by
          have h3 := insert_error sz v i x e (by rw [hp])
          rwa [hp] at h3
        subst hv
        exact ⟨⟨h1, h2⟩, hperm⟩
      | ok u =>
        obtain ⟨hi, hd, hl, hc⟩ := insert_ok sz v v' i x u ⟨h1, h2⟩ hp
        refine ⟨insert_inv sz v v' i x u ⟨h1, h2⟩ hp, ?_⟩
        show (made ++ [x]).Perm (outs ++ v'.data)
        rw [hd]
        calc made ++ [x]
            _ ~ (outs ++ v.data) ++ [x] := hperm.append_right [x]
            _ = outs ++ (v.data ++ [x]) := List.append_assoc _ _ _
            _ ~ outs ++ ([x] ++ v.data) :=
              List.Perm.append_left _ List.perm_append_comm
            _ = outs ++ (x :: (v.data.take i ++ v.data.drop i)) := by
              rw [List.take_append_drop]
              rfl
            _ ~ outs ++ (v.data.take i ++ x :: v.data.drop i) :=
              List.Perm.append_left _ List.perm_middle.symm
  | remove i =>
    show TraceInv (match v.remove i with
      | (Except.ok r, v') => (v', made, outs ++ [r])
      | (Except.error _, v') => (v', made, outs))
    cases hp : v.remove i with
    | mk r v' =>
      cases r with
      | error e =>
        have hv : v' = v := by
          have h3 := remove_error v i e (by rw [hp])
          rwa [hp] at h3
        subst hv
        exact ⟨⟨h1, h2⟩, hperm⟩
      | ok x =>
        have hi : i < v.len := by
          by_contra hge
          rw [remove_oob v i (by omega)] at hp
          simp at hp
        obtain ⟨y, hy, hrem⟩ := remove_ok v i ⟨h1, h2⟩ hi
        rw [hrem] at hp
        obtain ⟨hxy, hv'⟩ := Prod.mk.injEq .. ▸ hp
        obtain rfl : y = x := Except.ok.inj hxy
        subst hv'
        refine ⟨remove_inv v _ i y ⟨h1, h2⟩ hrem, ?_⟩
        show made.Perm ((outs ++ [y]) ++ (v.data.take i ++ v.data.drop (i + 1)))
        have hd : v.data.drop i = y :: v.data.drop (i + 1) := by
          have hb : i < v.data.length := by omega
          rw [List.drop_eq_getElem_cons hb]
          have h3 : v.data[i] = y := by
            have h4 := List.getElem?_eq_getElem hb
            rw [h4] at hy
            exact Option.some.inj hy
          rw [h3]
        calc made
            _ ~ outs ++ v.data := hperm
            _ = outs ++ (v.data.take i ++ (y :: v.data.drop (i + 1))) := by
              rw [← hd, List.take_append_drop]
            _ ~ outs ++ (y :: (v.data.take i ++ v.data.drop (i + 1))) :=
              List.Perm.append_left _ List.perm_middle
            _ = (outs ++ [y]) ++ (v.data.take i ++ v.data.drop (i + 1)) := by
              rw [List.append_assoc]
              rfl

theorem runTrace_inv {T : Type} (sz : Nat) :
    ∀ (ops : List (Op T)) (st : Vec T × List T × List T), TraceInv st →
      TraceInv (runTrace sz st ops) := by
  intro ops
  induction ops with
  | nil => intro st h; exact h
  | cons op ops ih =>
    intro st h
    obtain ⟨v, made, outs⟩ := st
    exact ih (stepTrace sz (v, made, outs) op) (stepTrace_inv sz v made outs op h)

theorem pushAll_ok {T : Type} (sz : Nat) :
    ∀ (xs : List T) (v : Vec T), Inv v → (pushAll sz v xs).1 = Except.ok () →
      (pushAll sz v xs).2.data = v.data ++ xs ∧
        (pushAll sz v xs).2.len = v.len + xs.length ∧
        Inv (pushAll sz v xs).2 := by
  intro xs
  induction xs with
  | nil =>
    intro v hInv hok
    exact ⟨(List.append_nil _).symm, rfl, hInv⟩
  | cons x xs ih =>
    intro v hInv hok
    have hstep : pushAll sz v (x :: xs) =
        (match v.push sz x with
         | (Except.ok _, v') => pushAll sz v' xs
         | (Except.error e, v') => (Except.error e, v')) := rfl
    cases hp : v.push sz x with
    | mk r v' =>
      cases r with
      | error e =>
        rw [hstep, hp] at hok
        simp at hok
      | ok u =>
        rw [hstep, hp] at hok ⊢
        show (pushAll sz v' xs).2.data = v.data ++ (x :: xs) ∧
          (pushAll sz v' xs).2.len = v.len + (x :: xs).length ∧
          Inv (pushAll sz v' xs).2
        obtain ⟨hd, hl, hc⟩ := push_ok sz v v' x u hp
        have hInv' := push_inv sz v v' x u hInv hp
        obtain ⟨ih1, ih2, ih3⟩ := ih v' hInv' hok
        refine ⟨?_, ?_, ih3⟩
        · rw [ih1, hd, List.append_assoc]
          rfl
        · rw [ih2, hl, List.length_cons]
          omega

theorem popN_all {T : Type} :
    ∀ (n : Nat) (v : Vec T), Inv v → v.len = n →
      (popN v n).1 = v.data.reverse.map some ∧ (popN v n).2.len = 0 ∧
        (popN v n).2.data = [] ∧ (popN v n).2.cap = v.cap := by
  intro n
  induction n with
  | zero =>
    intro v hInv hlen
    obtain ⟨h1, h2⟩ := hInv
    have hdata : v.data = [] := List.length_eq_zero.mp (by omega)
    rw [hdata]
    exact ⟨rfl, hlen, hdata, rfl⟩
  | succ n ih =>
    intro v hInv hlen
    have h1 := hInv.1
    have h2 := hInv.2
    obtain ⟨x, hx, hpop⟩ := pop_spec v hInv (by omega)
    have hInv' := pop_inv v _ (some x) hInv hpop
    have hstep : popN v (n + 1) =
        ((v.pop).1 :: (popN (v.pop).2 n).1, (popN (v.pop).2 n).2) := rfl
    rw [hstep, hpop]
    obtain ⟨ih1, ih2, ih3, ih4⟩ := ih _ hInv' (by show v.len - 1 = n; omega)
    have hdata : v.data = v.data.take (v.len - 1) ++ [x] :=
      take_getElem_eq v.data (v.len - 1) x (by omega) hx
    refine ⟨?_, ih2, ih3, ih4⟩
    show some x :: (popN _ n).1 = v.data.reverse.map some
    rw [ih1]
    conv_rhs => rw [hdata]
    rw [List.reverse_concat]
    rfl

theorem new_ok {T : Type} (sz : Nat) (v0 : Vec T)
    (h : Vec.new T sz = Except.ok v0) :
    v0 = ⟨[], 0, 0⟩ ∧ sz ≠ 0 := by
  unfold Vec.new at h
  by_cases hsz : sz ≠ 0
  · rw [if_pos hsz] at h
    exact ⟨(Except.ok.inj h).symm, hsz⟩
  · rw [if_neg hsz] at h
    simp at h

theorem pushAll_cap {T : Type} (sz : Nat) :
    ∀ (xs : List T) (v : Vec T),
      ((v.cap = 0 ∧ v.len = 0) ∨
        (∃ m, v.cap = 2 ^ m ∧ 1 ≤ v.len ∧ v.len ≤ v.cap ∧ v.cap < 2 * v.len)) →
      (pushAll sz v xs).1 = Except.ok () →
      (pushAll sz v xs).2.len = v.len + xs.length ∧
        (((pushAll sz v xs).2.cap = 0 ∧ (pushAll sz v xs).2.len = 0) ∨
          (∃ m, (pushAll sz v xs).2.cap = 2 ^ m ∧
            1 ≤ (pushAll sz v xs).2.len ∧
            (pushAll sz v xs).2.len ≤ (pushAll sz v xs).2.cap ∧
            (pushAll sz v xs).2.cap < 2 * (pushAll sz v xs).2.len)) := by
  intro xs
  induction xs with
  | nil =>
    intro v hcap hok
    exact ⟨rfl, hcap⟩
  | cons x xs ih =>
    intro v hcap hok
    have hstep : pushAll sz v (x :: xs) =
        (match v.push sz x with
         | (Except.ok _, v') => pushAll sz v' xs
         | (Except.error e, v') => (Except.error e, v')) := rfl
    cases hp : v.push sz x with
    | mk r v' =>
      cases r with
      | error e =>
        rw [hstep, hp] at hok
        simp at hok
      | ok u =>
        rw [hstep, hp] at hok ⊢
        show (pushAll sz v' xs).2.len = v.len + (x :: xs).length ∧ _
        obtain ⟨hd, hl, hc⟩ := push_ok sz v v' x u hp
        have hcap' : (v'.cap = 0 ∧ v'.len = 0) ∨
            (∃ m, v'.cap = 2 ^ m ∧ 1 ≤ v'.len ∧ v'.len ≤ v'.cap ∧
              v'.cap < 2 * v'.len) := by
          rcases hcap with ⟨hc0, hl0⟩ | ⟨m, hm, hm1, hm2, hm3⟩
          · have hcv : v'.cap = 1 := by rw [hc, if_pos (by omega), if_pos hc0]
            right
            exact ⟨0, by rw [hcv]; rfl, by omega, by omega, by omega⟩
          · right
            by_cases hfull : v.len = v.cap
            · have hcv : v'.cap = 2 * v.cap := by
                rw [hc, if_pos hfull, if_neg (by omega)]
              refine ⟨m + 1, ?_, by omega, by omega, by omega⟩
              rw [hcv, hm, pow_succ]
              omega
            · have hcv : v'.cap = v.cap := by rw [hc, if_neg hfull]
              exact ⟨m, by rw [hcv]; exact hm, by omega, by omega, by omega⟩
        obtain ⟨ih1, ih2⟩ := ih v' hcap' hok
        refine ⟨?_, ih2⟩
        rw [ih1, hl, List.length_cons]
        omega

theorem runTakes_from_zero {T : Type} (data : List T) (cap : Nat)
    (ds : List Bool) :
    ∃ s e, s ≤ e ∧ e ≤ data.length ∧
      runTakes ⟨data, cap, 0, data.length⟩ ds =
        ((data.take s, (data.drop e).reverse), ⟨data, cap, s, e⟩) := by
  obtain ⟨s, e, h1, h2, h3, heq⟩ :=
    runTakes_spec data cap ds 0 data.length (Nat.zero_le _) (le_refl _)
  refine ⟨s, e, h2, h3, ?_⟩
  rw [heq, List.drop_zero]
  have h4 : (data.drop e).take (data.length - e) = data.drop e :=
    List.take_of_length_le (by rw [List.length_drop])
  rw [h4]

/-- Claim C1: for every element type of non-zero size, pushing the elements
of `xs` in order onto a fresh container from `new()` (all pushes succeeding)
and then popping `xs.length` times returns the pushed elements in exact
reverse order, and leaves the container with `len = 0`. -/
theorem push_pop_roundtrip {T : Type} (sz : Nat) (xs : List T) (v0 : Vec T)
    (hnew : Vec.new T sz = Except.ok v0)
    (hok : (pushAll sz v0 xs).1 = Except.ok ()) :
    (popN (pushAll sz v0 xs).2 xs.length).1 = xs.reverse.map some ∧
      (popN (pushAll sz v0 xs).2 xs.length).2.len = 0 := by
  obtain ⟨hv0, -⟩ := new_ok sz v0 hnew
  subst hv0
  have hInv0 : Inv (⟨[], 0, 0⟩ : Vec T) := ⟨rfl, le_refl 0⟩
  obtain ⟨hd, hl, hInv⟩ := pushAll_ok sz xs _ hInv0 hok
  have hlen : (pushAll sz ⟨[], 0, 0⟩ xs).2.len = xs.length := by
    rw [hl]
    show 0 + xs.length = xs.length
    omega
  obtain ⟨p1, p2, -, -⟩ := popN_all xs.length _ hInv hlen
  refine ⟨?_, p2⟩
  rw [p1, hd]
  rfl

/-- Witness for C1 at `sz = 4`, `xs = [1, 2, 3]`. -/
theorem push_pop_roundtrip_witness :
    (popN (pushAll 4 (⟨[], 0, 0⟩ : Vec Nat) [1, 2, 3]).2 3).1 =
        [some 3, some 2, some 1] ∧
      (popN (pushAll 4 (⟨[], 0, 0⟩ : Vec Nat) [1, 2, 3]).2 3).2.len = 0 :=
  push_pop_roundtrip 4 [1, 2, 3] ⟨[], 0, 0⟩ rfl rfl

/-- Claim C2: after any finite sequence of push/pop/insert/remove operations
starting from `new()`, `len` equals the number of elements logically present
(the live elements, which also equals constructed minus handed out), and
`len ≤ cap` holds. -/
theorem len_counts_live_elements {T : Type} (sz : Nat) (v0 : Vec T)
    (hnew : Vec.new T sz = Except.ok v0) (ops : List (Op T)) :
    (runTrace sz (v0, [], []) ops).1.len =
        (runTrace sz (v0, [], []) ops).1.data.length ∧
      (runTrace sz (v0, [], []) ops).1.len +
          (runTrace sz (v0, [], []) ops).2.2.length =
        (runTrace sz (v0, [], []) ops).2.1.length ∧
      (runTrace sz (v0, [], []) ops).1.len ≤
        (runTrace sz (v0, [], []) ops).1.cap := by
  obtain ⟨hv0, -⟩ := new_ok sz v0 hnew
  subst hv0
  have h0 : TraceInv ((⟨[], 0, 0⟩ : Vec T), [], []) :=
    ⟨⟨rfl, le_refl 0⟩, List.Perm.refl []⟩
  obtain ⟨⟨h1, h2⟩, hperm⟩ := runTrace_inv sz ops _ h0
  have hlen := hperm.length_eq
  rw [List.length_append] at hlen
  exact ⟨h1, by omega, h2⟩

/-- Witness for C2 at `sz = 1` and a mixed operation sequence. -/
theorem len_counts_live_elements_witness :
    (runTrace 1 ((⟨[], 0, 0⟩ : Vec Nat), [], [])
          [Op.push 5, Op.insert 0 7, Op.pop, Op.push 9, Op.remove 1]).1.len =
        (runTrace 1 ((⟨[], 0, 0⟩ : Vec Nat), [], [])
          [Op.push 5, Op.insert 0 7, Op.pop, Op.push 9, Op.remove 1]).1.data.length ∧
      (runTrace 1 ((⟨[], 0, 0⟩ : Vec Nat), [], [])
            [Op.push 5, Op.insert 0 7, Op.pop, Op.push 9, Op.remove 1]).1.len +
          (runTrace 1 ((⟨[], 0, 0⟩ : Vec Nat), [], [])
            [Op.push 5, Op.insert 0 7, Op.pop, Op.push 9, Op.remove 1]).2.2.length =
        (runTrace 1 ((⟨[], 0, 0⟩ : Vec Nat), [], [])
          [Op.push 5, Op.insert 0 7, Op.pop, Op.push 9, Op.remove 1]).2.1.length ∧
      (runTrace 1 ((⟨[], 0, 0⟩ : Vec Nat), [], [])
            [Op.push 5, Op.insert 0 7, Op.pop, Op.push 9, Op.remove 1]).1.len ≤
        (runTrace 1 ((⟨[], 0, 0⟩ : Vec Nat), [], [])
          [Op.push 5, Op.insert 0 7, Op.pop, Op.push 9, Op.remove 1]).1.cap :=
  len_counts_live_elements 1 ⟨[], 0, 0⟩ rfl
    [Op.push 5, Op.insert 0 7, Op.pop, Op.push 9, Op.remove 1]

/-- Claim C3: for every container satisfying the length invariant and every
`index ≤ len`, a successful `insert(index, elem)` shifts the elements at
positions `[index, len)` one slot right, writes `elem` at `index`, and
increments `len` (with capacity made sufficient first, growing when
`len = cap`); for `index > len` it reports the precondition failure instead
of truncating or clamping. -/
theorem insert_correct {T : Type} (sz : Nat) (v : Vec T) (index : Nat)
    (elem : T) (hInv : Inv v) :
    (index ≤ v.len → (v.insert sz index elem).1 = Except.ok () →
      (v.insert sz index elem).2.data =
          v.data.take index ++ elem :: v.data.drop index ∧
        (v.insert sz index elem).2.len = v.len + 1 ∧
        v.len + 1 ≤ (v.insert sz index elem).2.cap) ∧
    (v.len < index →
      v.insert sz index elem =
        (Except.error "Insertion index is out of bounds!", v)) := by
  constructor
  · intro hle hok
    cases hp : v.insert sz index elem with
    | mk r v' =>
      rw [hp] at hok
      cases r with
      | error e => simp at hok
      | ok u =>
        obtain ⟨-, hd, hl, hc⟩ := insert_ok sz v v' index elem u hInv hp
        exact ⟨hd, hl, hc⟩
  · intro hgt
    exact insert_oob sz v index elem hgt

/-- Witness for C3 at `v = ⟨[10, 20, 30], 3, 4⟩`, exercising both the
successful insertion at index 1 and the out-of-bounds failure at index 5. -/
theorem insert_correct_witness :
    (((⟨[10, 20, 30], 3, 4⟩ : Vec Nat).insert 8 1 99).2.data =
          [10, 99, 20, 30] ∧
        ((⟨[10, 20, 30], 3, 4⟩ : Vec Nat).insert 8 1 99).2.len = 4 ∧
        4 ≤ ((⟨[10, 20, 30], 3, 4⟩ : Vec Nat).insert 8 1 99).2.cap) ∧
      (⟨[10, 20, 30], 3, 4⟩ : Vec Nat).insert 8 5 99 =
        (Except.error "Insertion index is out of bounds!",
          ⟨[10, 20, 30], 3, 4⟩) :=
  ⟨(insert_correct 8 ⟨[10, 20, 30], 3, 4⟩ 1 99 ⟨rfl, by decide⟩).1
      (by decide) rfl,
    (insert_correct 8 ⟨[10, 20, 30], 3, 4⟩ 5 99 ⟨rfl, by decide⟩).2 (by decide)⟩

/-- Claim C4: for every container satisfying the length invariant and every
`index < len`, `remove(index)` returns the element previously at `index`,
decrements `len`, and closes the hole by shifting `(index, old_len)` one
slot left, so the remaining sequence is the original with position `index`
deleted; for `index ≥ len` it reports the precondition failure. -/
theorem remove_correct {T : Type} (v : Vec T) (index : Nat) (hInv : Inv v) :
    (index < v.len →
      ∃ x, v.data[index]? = some x ∧
        v.remove index =
          (Except.ok x,
            { v with len := v.len - 1,
                     data := v.data.take index ++ v.data.drop (index + 1) })) ∧
    (v.len ≤ index →
      v.remove index = (Except.error "Removal index is out of bounds!", v)) := by
  constructor
  · intro hlt
    exact remove_ok v index hInv hlt
  · intro hge
    exact remove_oob v index hge

/-- Witness for C4 at `v = ⟨[10, 20, 30], 3, 4⟩`, exercising both the
successful removal at index 0 and the out-of-bounds failure at index 3. -/
theorem remove_correct_witness :
    (∃ x, (⟨[10, 20, 30], 3, 4⟩ : Vec Nat).data[0]? = some x ∧
        (⟨[10, 20, 30], 3, 4⟩ : Vec Nat).remove 0 =
          (Except.ok x, ⟨[20, 30], 2, 4⟩)) ∧
      (⟨[10, 20, 30], 3, 4⟩ : Vec Nat).remove 3 =
        (Except.error "Removal index is out of bounds!", ⟨[10, 20, 30], 3, 4⟩) :=
  ⟨(remove_correct ⟨[10, 20, 30], 3, 4⟩ 0 ⟨rfl, by decide⟩).1 (by decide),
    (remove_correct ⟨[10, 20, 30], 3, 4⟩ 3 ⟨rfl, by decide⟩).2 (by decide)⟩

/-- Claim C9: on every failure path — `insert` with `index > len`, `remove`
with `index ≥ len`, and the capacity-overflow assertion in `grow` (reached
from `push`, and from `insert` with a valid index on a full container) — the
failure is raised strictly before any state mutation, so the returned state
is exactly the state before the call. -/
theorem failure_before_mutation {T : Type} (sz : Nat) (v : Vec T) (i : Nat)
    (x : T) :
    (v.len < i →
      v.insert sz i x = (Except.error "Insertion index is out of bounds!", v)) ∧
    (v.len ≤ i →
      v.remove i = (Except.error "Removal index is out of bounds!", v)) ∧
    (v.len = v.cap → v.cap ≠ 0 → isizeMax / 2 < v.cap * sz →
      v.push sz x = (Except.error "The capacity has overflown!", v)) ∧
    (i ≤ v.len → v.len = v.cap → v.cap ≠ 0 → isizeMax / 2 < v.cap * sz →
      v.insert sz i x = (Except.error "The capacity has overflown!", v)) := by
  have hgrow : v.cap ≠ 0 → isizeMax / 2 < v.cap * sz →
      Vec.grow sz v = Except.error "The capacity has overflown!" := by
    intro hc0 hovf
    unfold Vec.grow
    rw [if_neg hc0]
    show (if v.cap * sz ≤ isizeMax / 2 then _ else _) = _
    rw [if_neg (by omega)]
  refine ⟨insert_oob sz v i x, remove_oob v i, ?_, ?_⟩
  · intro hfull hc0 hovf
    unfold Vec.push
    rw [if_pos hfull, hgrow hc0 hovf]
  · intro hle hfull hc0 hovf
    unfold Vec.insert
    rw [if_pos hle, if_pos hfull, hgrow hc0 hovf]

/-- Witness for C9: the out-of-bounds failures on a small concrete
container, and the overflow failure on a full container of capacity
`2 ^ 62` with element size 2 (so the stored byte size already exceeds half
of `isize::MAX`).  In every case the returned state is the input state. -/
theorem failure_before_mutation_witness :
    (⟨[7], 1, 2⟩ : Vec Nat).insert 8 2 99 =
        (Except.error "Insertion index is out of bounds!", ⟨[7], 1, 2⟩) ∧
      (⟨[7], 1, 2⟩ : Vec Nat).remove 1 =
        (Except.error "Removal index is out of bounds!", ⟨[7], 1, 2⟩) ∧
      (⟨[], 2 ^ 62, 2 ^ 62⟩ : Vec Nat).push 2 5 =
        (Except.error "The capacity has overflown!", ⟨[], 2 ^ 62, 2 ^ 62⟩) ∧
      (⟨[], 2 ^ 62, 2 ^ 62⟩ : Vec Nat).insert 2 0 5 =
        (Except.error "The capacity has overflown!", ⟨[], 2 ^ 62, 2 ^ 62⟩) :=
  ⟨(failure_before_mutation 8 ⟨[7], 1, 2⟩ 2 99).1 (by decide),
    (failure_before_mutation 8 ⟨[7], 1, 2⟩ 1 99).2.1 (by decide),
    (failure_before_mutation 2 ⟨[], 2 ^ 62, 2 ^ 62⟩ 0 5).2.2.1 (by decide)
      (by decide) (by decide),
    (failure_before_mutation 2 ⟨[], 2 ^ 62, 2 ^ 62⟩ 0 5).2.2.2 (by decide)
      (by decide) (by decide) (by decide)⟩

/-- Claim C10: converting a container with `cap = 0` (a fresh, never-grown
container) into the consuming iterator yields equal cursors, so `next` and
`next_back` immediately return `None`, and dropping the iterator frees no
buffer and destructs nothing. -/
theorem empty_into_iter {T : Type} (v : Vec T) (hcap : v.cap = 0) :
    v.into_iter.start = v.into_iter.end_ ∧
      v.into_iter.next = (none, v.into_iter) ∧
      v.into_iter.next_back = (none, v.into_iter) ∧
      IntoIter.dropIt v.into_iter = ([], false) := by
  have hse : v.into_iter.start = v.into_iter.end_ := by
    show 0 = (if v.cap = 0 then 0 else v.len)
    rw [if_pos hcap]
  refine ⟨hse, next_stop _ hse, next_back_stop _ hse, ?_⟩
  unfold IntoIter.dropIt
  rw [if_neg (by show ¬v.cap ≠ 0; simp [hcap])]

/-- Witness for C10 at the fresh empty container over `Nat`. -/
theorem empty_into_iter_witness :
    (⟨[], 0, 0⟩ : Vec Nat).into_iter.start =
        (⟨[], 0, 0⟩ : Vec Nat).into_iter.end_ ∧
      (⟨[], 0, 0⟩ : Vec Nat).into_iter.next =
        (none, (⟨[], 0, 0⟩ : Vec Nat).into_iter) ∧
      (⟨[], 0, 0⟩ : Vec Nat).into_iter.next_back =
        (none, (⟨[], 0, 0⟩ : Vec Nat).into_iter) ∧
      IntoIter.dropIt (⟨[], 0, 0⟩ : Vec Nat).into_iter = ([], false) :=
  empty_into_iter ⟨[], 0, 0⟩ rfl

/-- Counterexample for C8: the claim says the zero-size rejection happens
statically, at compile time, "not as a runtime check".  In the source it is
`assert_ne!(mem::size_of::<T>(), 0, ...)` at the top of `Vec::new`, a check
that executes when `new()` runs: the embedded runtime semantics of `new`
produces the panic as a runtime result for element size 0.  A static
rejection would not appear in the runtime behaviour of `new` at all. -/
theorem new_zst_check_is_dynamic :
    Vec.new Nat 0 = Except.error "I\x27m not ready to handle ZSTs ):" := rfl

/-- Claim C8 (amended): `Vec::new` rejects a zero-sized element type with a
runtime assertion executed at construction time — the ZST panic message —
and constructs the empty container for every non-zero element size. -/
theorem new_zst_runtime_assert (T : Type) (sz : Nat) :
    (sz = 0 →
      Vec.new T sz = Except.error "I\x27m not ready to handle ZSTs ):") ∧
    (sz ≠ 0 → Vec.new T sz = Except.ok ⟨[], 0, 0⟩) := by
  constructor
  · intro h
    unfold Vec.new
    rw [if_neg (by omega)]
  · intro h
    unfold Vec.new
    rw [if_pos h]

/-- Witness for amended C8 at element sizes 0 and 1. -/
theorem new_zst_runtime_assert_witness :
    Vec.new Nat 0 = Except.error "I\x27m not ready to handle ZSTs ):" ∧
      Vec.new Nat 1 = Except.ok ⟨[], 0, 0⟩ :=
  ⟨(new_zst_runtime_assert Nat 0).1 rfl,
    (new_zst_runtime_assert Nat 1).2 (by decide)⟩

/-- Claim C6: converting a container (satisfying the length invariant) into
the consuming iterator: draining with forward takes only yields exactly the
elements in original order and then `None`; draining with backward takes
only yields them in exact reverse order and then `None`; and after any
interleaving of forward and backward takes the forward yields form a prefix
of the original sequence (in order), the backward yields form the reversed
corresponding suffix, and once the iterator is exhausted the two blocks
together cover the whole original sequence with no gaps or duplicates. -/
theorem into_iter_drain {T : Type} (v : Vec T) (hInv : Inv v) :
    ((runTakes v.into_iter (List.replicate v.len true)).1.1 = v.data ∧
      (runTakes v.into_iter (List.replicate v.len true)).1.2 = [] ∧
      ((runTakes v.into_iter (List.replicate v.len true)).2.next).1 = none) ∧
    ((runTakes v.into_iter (List.replicate v.len false)).1.1 = [] ∧
      (runTakes v.into_iter (List.replicate v.len false)).1.2 =
        v.data.reverse ∧
      ((runTakes v.into_iter
          (List.replicate v.len false)).2.next_back).1 = none) ∧
    (∀ ds : List Bool, ∃ s e, s ≤ e ∧ e ≤ v.len ∧
      (runTakes v.into_iter ds).1.1 = v.data.take s ∧
      (runTakes v.into_iter ds).1.2 = (v.data.drop e).reverse ∧
      (s = e →
        (runTakes v.into_iter ds).1.1 ++
          ((runTakes v.into_iter ds).1.2).reverse = v.data)) := by
  have h1 := hInv.1
  have hvi : v.into_iter = ⟨v.data, v.cap, 0, v.data.length⟩ := by
    rw [into_iter_eq v hInv, h1]
  rw [hvi, h1]
  refine ⟨?_, ?_, ?_⟩
  · have hA := runTakes_replicate_true v.data v.cap v.data.length 0
      v.data.length (by omega) (le_refl _)
    rw [hA]
    refine ⟨?_, rfl, ?_⟩
    · show (v.data.drop 0).take v.data.length = v.data
      rw [List.drop_zero, List.take_length]
    · show ((⟨v.data, v.cap, v.data.length, v.data.length⟩ :
        IntoIter T).next).1 = none
      rw [next_stop _ rfl]
  · have hB := runTakes_replicate_false v.data v.cap v.data.length 0
      v.data.length (by omega) (le_refl _)
    rw [hB]
    refine ⟨rfl, ?_, ?_⟩
    · show ((v.data.drop 0).take v.data.length).reverse = v.data.reverse
      rw [List.drop_zero, List.take_length]
    · show ((⟨v.data, v.cap, 0, 0⟩ : IntoIter T).next_back).1 = none
      rw [next_back_stop _ rfl]
  · intro ds
    obtain ⟨s, e, hse, hel, heq⟩ := runTakes_from_zero v.data v.cap ds
    refine ⟨s, e, hse, hel, ?_, ?_, ?_⟩
    · rw [heq]
    · rw [heq]
    · intro hexh
      rw [heq]
      show v.data.take s ++ ((v.data.drop e).reverse).reverse = v.data
      rw [List.reverse_reverse, hexh, List.take_append_drop]

/-- Witness for C6 at `v = ⟨[1, 2, 3], 3, 4⟩`, with the interleaving
`[true, false, true]` (forward, backward, forward). -/
theorem into_iter_drain_witness :
    ((runTakes (⟨[1, 2, 3], 3, 4⟩ : Vec Nat).into_iter
          (List.replicate 3 true)).1.1 = [1, 2, 3] ∧
        (runTakes (⟨[1, 2, 3], 3, 4⟩ : Vec Nat).into_iter
          (List.replicate 3 true)).1.2 = [] ∧
        ((runTakes (⟨[1, 2, 3], 3, 4⟩ : Vec Nat).into_iter
          (List.replicate 3 true)).2.next).1 = none) ∧
      ((runTakes (⟨[1, 2, 3], 3, 4⟩ : Vec Nat).into_iter
          (List.replicate 3 false)).1.1 = [] ∧
        (runTakes (⟨[1, 2, 3], 3, 4⟩ : Vec Nat).into_iter
          (List.replicate 3 false)).1.2 = [3, 2, 1] ∧
        ((runTakes (⟨[1, 2, 3], 3, 4⟩ : Vec Nat).into_iter
          (List.replicate 3 false)).2.next_back).1 = none) ∧
      (∀ ds : List Bool, ∃ s e, s ≤ e ∧ e ≤ 3 ∧
        (runTakes (⟨[1, 2, 3], 3, 4⟩ : Vec Nat).into_iter ds).1.1 =
          [1, 2, 3].take s ∧
        (runTakes (⟨[1, 2, 3], 3, 4⟩ : Vec Nat).into_iter ds).1.2 =
          ([1, 2, 3].drop e).reverse ∧
        (s = e →
          (runTakes (⟨[1, 2, 3], 3, 4⟩ : Vec Nat).into_iter ds).1.1 ++
            ((runTakes (⟨[1, 2, 3], 3, 4⟩ :
              Vec Nat).into_iter ds).1.2).reverse = [1, 2, 3])) :=
  into_iter_drain ⟨[1, 2, 3], 3, 4⟩ ⟨rfl, by decide⟩

open List in
/-- Claim C7: for a container built by any sequence of operations from
`new()` (`made` lists the elements the container took ownership of, `outs`
those already handed back to the caller by `pop`/`remove`), dropping the
container destructs exactly the remaining elements — so every constructed
element is destructed exactly once overall, none leaked, none twice — and
likewise converting to the consuming iterator, taking any interleaving of
forward and backward takes, and dropping the partially-drained iterator:
the handed-out elements, the yielded elements, and the elements destructed
by the iterator drop partition the constructed elements exactly. -/
theorem no_leak_no_double_drop {T : Type} (sz : Nat) (v0 : Vec T)
    (hnew : Vec.new T sz = Except.ok v0) (ops : List (Op T)) (ds : List Bool) :
    ((runTrace sz (v0, [], []) ops).2.1).Perm
        ((runTrace sz (v0, [], []) ops).2.2 ++
          (Vec.dropVec (runTrace sz (v0, [], []) ops).1).1) ∧
      (runTrace sz (v0, [], []) ops).2.1.length =
        (runTrace sz (v0, [], []) ops).2.2.length +
          (Vec.dropVec (runTrace sz (v0, [], []) ops).1).1.length ∧
      ((runTrace sz (v0, [], []) ops).2.1).Perm
        ((runTrace sz (v0, [], []) ops).2.2 ++
          (runTakes (runTrace sz (v0, [], []) ops).1.into_iter ds).1.1 ++
          (runTakes (runTrace sz (v0, [], []) ops).1.into_iter ds).1.2 ++
          (IntoIter.dropIt
            (runTakes (runTrace sz (v0, [], []) ops).1.into_iter ds).2).1) ∧
      (runTrace sz (v0, [], []) ops).2.1.length =
        (runTrace sz (v0, [], []) ops).2.2.length +
          (runTakes (runTrace sz (v0, [], []) ops).1.into_iter ds).1.1.length +
          (runTakes (runTrace sz (v0, [], []) ops).1.into_iter ds).1.2.length +
          (IntoIter.dropIt
            (runTakes (runTrace sz (v0, [], []) ops).1.into_iter ds).2).1.length := by
  obtain ⟨hv0, -⟩ := new_ok sz v0 hnew
  subst hv0
  have hTI := runTrace_inv sz ops ((⟨[], 0, 0⟩ : Vec T), [], [])
    ⟨⟨rfl, le_refl 0⟩, List.Perm.refl []⟩
  generalize hR : runTrace sz ((⟨[], 0, 0⟩ : Vec T), [], []) ops = R at hTI ⊢
  obtain ⟨v, made, outs⟩ := R
  obtain ⟨⟨h1, h2⟩, hperm⟩ := hTI
  replace h1 : v.len = v.data.length := h1
  replace h2 : v.len ≤ v.cap := h2
  replace hperm : made.Perm (outs ++ v.data) := hperm
  have hvi : v.into_iter = ⟨v.data, v.cap, 0, v.data.length⟩ := by
    rw [into_iter_eq v ⟨h1, h2⟩, h1]
  obtain ⟨s, e, hse, hel, heq⟩ := runTakes_from_zero v.data v.cap ds
  have hdrop : (IntoIter.dropIt (⟨v.data, v.cap, s, e⟩ : IntoIter T)).1 =
      (v.data.drop s).take (e - s) := by
    apply dropIt_fst
    · exact hse
    · exact hel
    · intro hc
      replace hc : v.cap = 0 := hc
      show s = e
      omega
  have hmid : (v.data.drop s).take (e - s) ++ v.data.drop e =
      v.data.drop s := by
    have hdd : (v.data.drop s).drop (e - s) = v.data.drop e := by
      rw [List.drop_drop]
      congr 1
      omega
    conv_rhs => rw [← List.take_append_drop (e - s) (v.data.drop s), hdd]
  have hP3 : made.Perm (outs ++ v.data.take s ++ (v.data.drop e).reverse ++
      (v.data.drop s).take (e - s)) := by
    calc made
        _ ~ outs ++ v.data := hperm
        _ = outs ++ (v.data.take s ++ v.data.drop s) := by
          rw [List.take_append_drop]
        _ = outs ++ (v.data.take s ++
            ((v.data.drop s).take (e - s) ++ v.data.drop e)) := by rw [hmid]
        _ ~ outs ++ (v.data.take s ++
            (v.data.drop e ++ (v.data.drop s).take (e - s))) :=
          List.Perm.append_left _ (List.Perm.append_left _
            List.perm_append_comm)
        _ ~ outs ++ (v.data.take s ++
            ((v.data.drop e).reverse ++ (v.data.drop s).take (e - s))) :=
          List.Perm.append_left _ (List.Perm.append_left _
            (List.Perm.append_right _ (List.reverse_perm _).symm))
        _ = outs ++ v.data.take s ++ (v.data.drop e).reverse ++
            (v.data.drop s).take (e - s) := by simp [List.append_assoc]
  refine ⟨?_, ?_, ?_, ?_⟩
  · show made.Perm (outs ++ (Vec.dropVec v).1)
    rw [dropVec_fst v ⟨h1, h2⟩]
    exact hperm.trans (List.Perm.append_left outs
      (List.reverse_perm v.data).symm)
  · show made.length = outs.length + (Vec.dropVec v).1.length
    rw [dropVec_fst v ⟨h1, h2⟩, List.length_reverse]
    have h3 := hperm.length_eq
    rw [List.length_append] at h3
    omega
  · show made.Perm (outs ++ (runTakes v.into_iter ds).1.1 ++
      (runTakes v.into_iter ds).1.2 ++
      (IntoIter.dropIt (runTakes v.into_iter ds).2).1)
    rw [hvi, heq]
    show made.Perm (outs ++ v.data.take s ++ (v.data.drop e).reverse ++
      (IntoIter.dropIt (⟨v.data, v.cap, s, e⟩ : IntoIter T)).1)
    rw [hdrop]
    exact hP3
  · show made.length = outs.length + (runTakes v.into_iter ds).1.1.length +
      (runTakes v.into_iter ds).1.2.length +
      (IntoIter.dropIt (runTakes v.into_iter ds).2).1.length
    rw [hvi, heq]
    show made.length = outs.length + (v.data.take s).length +
      ((v.data.drop e).reverse).length +
      (IntoIter.dropIt (⟨v.data, v.cap, s, e⟩ : IntoIter T)).1.length
    rw [hdrop]
    have h3 := hP3.length_eq
    simp only [List.length_append] at h3
    omega

/-- Witness for C7: three pushes, then one forward and one backward take
on the consuming iterator before dropping it. -/
theorem no_leak_no_double_drop_witness :
    ((runTrace 4 ((⟨[], 0, 0⟩ : Vec Nat), [], [])
            [Op.push 1, Op.push 2, Op.push 3]).2.1).Perm
        ((runTrace 4 ((⟨[], 0, 0⟩ : Vec Nat), [], [])
            [Op.push 1, Op.push 2, Op.push 3]).2.2 ++
          (Vec.dropVec (runTrace 4 ((⟨[], 0, 0⟩ : Vec Nat), [], [])
            [Op.push 1, Op.push 2, Op.push 3]).1).1) ∧
      (runTrace 4 ((⟨[], 0, 0⟩ : Vec Nat), [], [])
            [Op.push 1, Op.push 2, Op.push 3]).2.1.length =
        (runTrace 4 ((⟨[], 0, 0⟩ : Vec Nat), [], [])
            [Op.push 1, Op.push 2, Op.push 3]).2.2.length +
          (Vec.dropVec (runTrace 4 ((⟨[], 0, 0⟩ : Vec Nat), [], [])
            [Op.push 1, Op.push 2, Op.push 3]).1).1.length ∧
      ((runTrace 4 ((⟨[], 0, 0⟩ : Vec Nat), [], [])
            [Op.push 1, Op.push 2, Op.push 3]).2.1).Perm
        ((runTrace 4 ((⟨[], 0, 0⟩ : Vec Nat), [], [])
            [Op.push 1, Op.push 2, Op.push 3]).2.2 ++
          (runTakes (runTrace 4 ((⟨[], 0, 0⟩ : Vec Nat), [], [])
            [Op.push 1, Op.push 2, Op.push 3]).1.into_iter [true, false]).1.1 ++
          (runTakes (runTrace 4 ((⟨[], 0, 0⟩ : Vec Nat), [], [])
            [Op.push 1, Op.push 2, Op.push 3]).1.into_iter [true, false]).1.2 ++
          (IntoIter.dropIt
            (runTakes (runTrace 4 ((⟨[], 0, 0⟩ : Vec Nat), [], [])
            [Op.push 1, Op.push 2, Op.push 3]).1.into_iter [true, false]).2).1) ∧
      (runTrace 4 ((⟨[], 0, 0⟩ : Vec Nat), [], [])
            [Op.push 1, Op.push 2, Op.push 3]).2.1.length =
        (runTrace 4 ((⟨[], 0, 0⟩ : Vec Nat), [], [])
            [Op.push 1, Op.push 2, Op.push 3]).2.2.length +
          (runTakes (runTrace 4 ((⟨[], 0, 0⟩ : Vec Nat), [], [])
            [Op.push 1, Op.push 2, Op.push 3]).1.into_iter [true, false]).1.1.length +
          (runTakes (runTrace 4 ((⟨[], 0, 0⟩ : Vec Nat), [], [])
            [Op.push 1, Op.push 2, Op.push 3]).1.into_iter [true, false]).1.2.length +
          (IntoIter.dropIt
            (runTakes (runTrace 4 ((⟨[], 0, 0⟩ : Vec Nat), [], [])
            [Op.push 1, Op.push 2, Op.push 3]).1.into_iter [true, false]).2).1.length :=
  no_leak_no_double_drop 4 ⟨[], 0, 0⟩ rfl
    [Op.push 1, Op.push 2, Op.push 3] [true, false]

/-- Claim C5: starting from `new()` and pushing exactly `k = xs.length`
elements with no intervening pops (all pushes succeeding), the capacity is
`0` when `k = 0` and otherwise the smallest power of two that is at least
`k`; and each `grow` step moves the capacity by exactly `0 → 1` or
`cap → 2 * cap`. -/
theorem growth_doubling {T : Type} (sz : Nat) (xs : List T) (v0 : Vec T)
    (hnew : Vec.new T sz = Except.ok v0)
    (hok : (pushAll sz v0 xs).1 = Except.ok ()) :
    (xs = [] → (pushAll sz v0 xs).2.cap = 0) ∧
      (xs ≠ [] → ∃ m, (pushAll sz v0 xs).2.cap = 2 ^ m ∧
        xs.length ≤ 2 ^ m ∧
        ∀ j : Nat, xs.length ≤ 2 ^ j → 2 ^ m ≤ 2 ^ j) ∧
      (∀ (w w' : Vec T), Vec.grow sz w = Except.ok w' →
        w'.cap = if w.cap = 0 then 1 else 2 * w.cap) := by
  obtain ⟨hv0, -⟩ := new_ok sz v0 hnew
  subst hv0
  obtain ⟨hlen, hcap⟩ := pushAll_cap sz xs ⟨[], 0, 0⟩ (Or.inl ⟨rfl, rfl⟩) hok
  replace hlen : (pushAll sz (⟨[], 0, 0⟩ : Vec T) xs).2.len = xs.length := by
    rw [hlen]
    show 0 + xs.length = xs.length
    omega
  refine ⟨?_, ?_, ?_⟩
  · intro hnil
    subst hnil
    rfl
  · intro hne
    have hxs : 1 ≤ xs.length := by
      cases xs with
      | nil => exact absurd rfl hne
      | cons a l => simp
    rcases hcap with ⟨hc0, hl0⟩ | ⟨m, hm, hm1, hm2, hm3⟩
    · rw [hlen] at hl0
      omega
    · rw [hlen] at hm2 hm3
      refine ⟨m, hm, by omega, ?_⟩
      intro j hj
      by_contra hlt
      push_neg at hlt
      have hjm : j < m := by
        by_contra hge
        push_neg at hge
        have h4 := Nat.pow_le_pow_right (by omega : 0 < 2) hge
        omega
      have h5 : 2 ^ (j + 1) ≤ 2 ^ m :=
        Nat.pow_le_pow_right (by omega) (by omega)
      rw [pow_succ] at h5
      omega
  · intro w w' hg
    obtain ⟨-, -, hc⟩ := grow_ok sz w w' hg
    exact hc

/-- Witness for C5 at `sz = 4`, `xs = [1, 2, 3]` (capacity becomes 4, the
smallest power of two at least 3). -/
theorem growth_doubling_witness :
    (([1, 2, 3] : List Nat) = [] →
        (pushAll 4 (⟨[], 0, 0⟩ : Vec Nat) [1, 2, 3]).2.cap = 0) ∧
      (([1, 2, 3] : List Nat) ≠ [] →
        ∃ m, (pushAll 4 (⟨[], 0, 0⟩ : Vec Nat) [1, 2, 3]).2.cap = 2 ^ m ∧
          ([1, 2, 3] : List Nat).length ≤ 2 ^ m ∧
          ∀ j : Nat, ([1, 2, 3] : List Nat).length ≤ 2 ^ j →
            2 ^ m ≤ 2 ^ j) ∧
      (∀ (w w' : Vec Nat), Vec.grow 4 w = Except.ok w' →
        w'.cap = if w.cap = 0 then 1 else 2 * w.cap) :=
  growth_doubling 4 [1, 2, 3] ⟨[], 0, 0⟩ rfl rfl

end ImplementingVec
